import Mathlib

/-!
Verification development for the hyperbolic tiling generator
(`src/lib.rs` and `src/tiling.rs` of the `hyperbolic` crate).

The Rust code is shallowly embedded: `f64` arithmetic is modelled by `ℝ`,
`cgmath::Matrix3<f64>` by `Matrix (Fin 3) (Fin 3) ℝ` (column-major
construction mirrored by `fromCols`), `u16`/`usize` by `Nat`, vectors by
lists, and the two runtime panics of the generation path (slice indexing
out of bounds) by the `Except` error `GenError.oob`.  The recursion of
`layer` is driven by an explicit fuel counter; `GenError.fuel` marks fuel
exhaustion, and `layerF_no_fuel_error` shows the fuel bound `layers + 1`
used by `layer` is never exhausted, so the fuel is invisible in practice.
-/

namespace Hyperbolic

/-! ### Isometry algebra (`src/lib.rs`) -/

abbrev Mat3 := Matrix (Fin 3) (Fin 3) ℝ

/-- `cgmath`'s `Matrix3::from_cols(c0, c1, c2)`: the matrix whose columns
are `c0`, `c1`, `c2`. -/
def fromCols (c0 c1 c2 : Fin 3 → ℝ) : Mat3 :=
  Matrix.of fun i j => ![c0, c1, c2] j i

/-- `translation` from `src/lib.rs` (the hyperboloid-model translation):
`w = sqrt(1 + |pos|²)`, `col = (pos / (w+1)).extend(1)`, and the columns are
`col * pos.x + unit_x`, `col * pos.y + unit_y`, `pos.extend(w)`. -/
noncomputable def translation (px py : ℝ) : Mat3 :=
  let w := Real.sqrt (1 + (px * px + py * py))
  let col : Fin 3 → ℝ := ![px / (w + 1), py / (w + 1), 1]
  fromCols
    (fun i => col i * px + ![1, 0, 0] i)
    (fun i => col i * py + ![0, 1, 0] i)
    ![px, py, w]

/-- `cgmath`'s `Matrix3::from_angle_z(θ)`: rotation about the `z` axis,
columns `(cos θ, sin θ, 0)`, `(−sin θ, cos θ, 0)`, `(0, 0, 1)`. -/
noncomputable def fromAngleZ (θ : ℝ) : Mat3 :=
  fromCols ![Real.cos θ, Real.sin θ, 0] ![-Real.sin θ, Real.cos θ, 0] ![0, 0, 1]

/-! ### Fragment parsing (`src/tiling.rs`, `Fragment::parse` and the line
splitting in `TilingGenerator::new`) -/

/-- Splitting a character list at every occurrence of a separator
(Rust's `str::split`, operating on the string's character data). -/
def splitOnChar (c : Char) : List Char → List (List Char)
  | [] => [[]]
  | ch :: rest =>
    let ps := splitOnChar c rest
    if ch = c then [] :: ps
    else
      match ps with
      | [] => [[ch]]
      | p :: ps2 => (ch :: p) :: ps2

/-- Rust's `str::trim`: drop whitespace from both ends. -/
def trimChars (l : List Char) : List Char :=
  ((l.dropWhile Char.isWhitespace).reverse.dropWhile Char.isWhitespace).reverse

/-- Rust's `str::split_once('+')`: split at the first `+`; the
`unwrap_or((v, "0"))` default of `Fragment::parse` is applied here. -/
def splitOncePlus (v : List Char) : List Char × List Char :=
  match splitOnChar '+' v with
  | [] => (v, ['0'])
  | [_] => (v, ['0'])
  | a :: rest => (a, List.intercalate ['+'] rest)

/-- Rust's `str::parse::<u16>()` (after `str::trim`): an optional leading
`+` sign followed by one or more ASCII digits, value below `2^16`. -/
def parseU16 (l : List Char) : Option Nat :=
  let t := trimChars l
  let digits :=
    match t with
    | '+' :: rest => rest
    | _ => t
  if digits ≠ [] ∧ digits.all Char.isDigit then
    let n := digits.foldl (fun a c => a * 10 + (c.toNat - 48)) 0
    if n < 65536 then some n else none
  else none

/-- One tile type: for each side, a `(neighbor-id, orientation-offset)`
pair; neighbor ids are stored shifted by one so that `0` is the "no
neighbor" sentinel. -/
structure Fragment where
  branch : List (Nat × Nat)
deriving DecidableEq

/-- `Fragment::parse`: split the line at commas; each item optionally
splits at `+` into `(a, b)` (default `b = "0"`); the stored pair is
`(a.trim().parse::<u16>().ok().map_or(0, v => v + 1),
b.trim().parse::<u16>().ok().unwrap_or(0))`.  Never fails. -/
def Fragment.parse (s : String) : Option Fragment :=
  some ⟨(splitOnChar ',' s.data).map fun v =>
    let p := splitOncePlus v
    ((parseU16 p.1).elim 0 (fun n => n + 1), (parseU16 p.2).getD 0)⟩

/-- Rust's `str::lines()`: split at `\n`, a trailing line break yields no
extra empty line, and a trailing `\r` is stripped from each line. -/
def rustLines (s : String) : List String :=
  let parts := splitOnChar '\n' s.data
  let parts := if parts.getLast? = some [] then parts.dropLast else parts
  parts.map fun l => String.mk (if l.getLast? = some '\r' then l.dropLast else l)

/-! ### The recursive traversal (`src/tiling.rs`, `State::iter` and
`layer`)

The Rust `layer` emits `(id, transform)` pairs through the `push` callback
of `State` and recurses; here `layerF` returns the list of emitted pairs
in emission order.  The two possible slice-indexing panics
(`state.data[id as usize]` and `.branch[(i + rot) % 4]`) surface as
`GenError.oob`.  The traversal is generic in the transform type `M`
(instantiated at `Mat3` by `TilingGenerator.generate`, and at `ℕ` for
executable computations, which is sound because the control flow never
inspects the transforms). -/

inductive GenError where
  | fuel
  | oob
deriving DecidableEq

/-- The constant state threaded through `layer` (without the `push`
callback, which is replaced by returning the emission list). -/
structure State (M : Type) where
  rotation_matrix : M
  forward_transform : M
  data : List Fragment

/-- The `scan` inside `State::iter`: pair each side index with the current
transform, then left-multiply by the rotation matrix for the next side. -/
def iterGo {M : Type} [Mul M] (rt : M) : M → List Nat → List (Nat × M)
  | _, [] => []
  | tr, i :: is => (i, tr) :: iterGo rt (rt * tr) is

/-- `State::iter`: `(0..4).scan(forward_transform, ...)` yielding
`(i, rotation_matrix^i * forward_transform)`. -/
def State.iter {M : Type} [Mul M] (s : State M) : List (Nat × M) :=
  iterGo s.rotation_matrix s.forward_transform (List.range 4)

/-- `state.data[id as usize].branch[(i + rot as usize) % 4]`, with both
out-of-bounds panics made explicit. -/
def branchLookup (data : List Fragment) (id rot i : Nat) :
    Except GenError (Nat × Nat) :=
  match data.get? id with
  | none => .error .oob
  | some f =>
    match f.branch.get? ((i + rot) % 4) with
    | none => .error .oob
    | some b => .ok b

/-- The side loop of `layer`: the `filter(id == 0 || i != 2)`,
`map`-lookup, `filter(id.0 != 0)`, `for_each`-recursion chain over the
side list, evaluated lazily left to right exactly as the Rust iterator
chain is.  `rec` is the recursive call at the next fuel level. -/
def sidesGo {M : Type} [Mul M] (data : List Fragment)
    (rec : M → Nat → Nat → Nat → Except GenError (List (Nat × M)))
    (tr : M) (id rot layers : Nat) :
    List (Nat × M) → Except GenError (List (Nat × M))
  | [] => .ok []
  | (i, tr1) :: rest =>
    if id = 0 ∨ i ≠ 2 then
      match branchLookup data id rot i with
      | .error e => .error e
      | .ok b =>
        if b.1 = 0 then sidesGo data rec tr id rot layers rest
        else
          match rec (tr * tr1) (b.1 - 1) b.2 (layers - 1) with
          | .error e => .error e
          | .ok sub =>
            match sidesGo data rec tr id rot layers rest with
            | .error e => .error e
            | .ok more => .ok (sub ++ more)
    else sidesGo data rec tr id rot layers rest

/-- `layer` from `src/tiling.rs`, with an explicit fuel counter driving
the recursion: emit `(id, tr)`, and if `layers != 0` expand the sides. -/
def layerF {M : Type} [Mul M] (st : State M) :
    Nat → M → Nat → Nat → Nat → Except GenError (List (Nat × M))
  | 0, _, _, _, _ => .error .fuel
  | fuel + 1, tr, id, rot, layers =>
    if layers = 0 then .ok [(id, tr)]
    else
      match sidesGo st.data (layerF st fuel) tr id rot layers st.iter with
      | .error e => .error e
      | .ok children => .ok ((id, tr) :: children)

/-- `layer` with the fuel bound `layers + 1`, which `layerF_no_fuel_error`
proves sufficient. -/
def layer {M : Type} [Mul M] (st : State M) (tr : M) (id rot layers : Nat) :
    Except GenError (List (Nat × M)) :=
  layerF st (layers + 1) tr id rot layers

/-! ### Tile template and mesh assembly (`src/tiling.rs`,
`kleinpoint`, `lerp`, `generate_tile`, `TilingGenerator`) -/

/-- `kleinpoint`: lift a Klein-disk point onto the hyperboloid. -/
noncomputable def kleinpoint (x y : ℝ) : Fin 3 → ℝ :=
  let w := 1 / Real.sqrt (1 - x * x - y * y)
  ![x * w, y * w, w]

/-- `lerp` from `src/tiling.rs`. -/
def lerp (a b p : ℝ) : ℝ := a * (1 - p) + b * p

/-- The `Mesh<S>` struct of `src/tiling.rs` (names `MeshT` to avoid the
unrelated GPU-buffer `Mesh` of `src/lib.rs`). -/
structure MeshT (S : Type) where
  vertex : List S
  index : List Nat

/-- `TilingGenerator::generate_tile`: four subdivided sides of the square
tile lifted by `kleinpoint`, and the triangle strip
`[i+1, i, j, i+1, j, j-1]` with `j = 39 - i` for `i` in `0..2*subdiv`. -/
noncomputable def generate_tile (side : ℝ) (subdiv : Nat) : MeshT (Fin 3 → ℝ) :=
  let vertex :=
    ((List.range subdiv).map fun i =>
      kleinpoint (-side) (lerp (-side) side ((i : ℝ) / (subdiv : ℝ)))) ++
    ((List.range subdiv).map fun i =>
      kleinpoint (lerp (-side) side ((i : ℝ) / (subdiv : ℝ))) side) ++
    ((List.range subdiv).map fun i =>
      kleinpoint side (lerp side (-side) ((i : ℝ) / (subdiv : ℝ)))) ++
    ((List.range subdiv).map fun i =>
      kleinpoint (lerp side (-side) ((i : ℝ) / (subdiv : ℝ))) (-side))
  let index := (List.range (2 * subdiv)).flatMap fun i =>
    [i + 1, i, 39 - i, i + 1, 39 - i, 39 - i - 1]
  ⟨vertex, index⟩

/-- The `Color` struct of `src/lib.rs` (`u8` components). -/
structure Color where
  r : Nat
  g : Nat
  b : Nat

/-- `impl From<Color> for [f32; 3]`: each component divided by `255.0`. -/
noncomputable def colorRgb (c : Color) : Fin 3 → ℝ :=
  ![(c.r : ℝ) / 255, (c.g : ℝ) / 255, (c.b : ℝ) / 255]

/-- The `Vertex` struct of `src/lib.rs`. -/
structure Vertex where
  pos : Fin 3 → ℝ
  color : Fin 3 → ℝ

/-- The `TilingGenerator` struct. -/
structure TilingGenerator where
  len : ℝ
  tile : MeshT (Fin 3 → ℝ)
  data : List Fragment

/-- `TilingGenerator::CENTRAL_ANGLE = TAU / 4.0`. -/
noncomputable def CENTRAL_ANGLE : ℝ := (2 * Real.pi) / 4

/-- `TilingGenerator::INNER_ANGLE = TAU / 5.0`. -/
noncomputable def INNER_ANGLE : ℝ := (2 * Real.pi) / 5

/-- `TilingGenerator::new`: compute the side length, build the tile
template with `subdiv = 10`, and parse the definition text line by line
with `lines().filter_map(Fragment::parse)`. -/
noncomputable def TilingGenerator.new (s : String) : TilingGenerator :=
  let len := (1 + Real.cos INNER_ANGLE) / (1 - Real.cos CENTRAL_ANGLE)
  let side := Real.sqrt (1 - 1 / len)
  { len := 2 * Real.sqrt (len * len - len)
    tile := generate_tile side 10
    data := (rustLines s).filterMap Fragment.parse }

/-- The `push` closure of `TilingGenerator::generate`, applied to the
emission stream in emission order: look up the instance's color
(`colors[id]`, a panic when out of range), transform every template
vertex by the accumulated matrix, and append the template's index block
offset by the running vertex count. -/
noncomputable def pushAll (colors : List Color) (tile : MeshT (Fin 3 → ℝ)) :
    List (Nat × Mat3) → List Vertex × List Nat →
      Except GenError (List Vertex × List Nat)
  | [], acc => .ok acc
  | (id, origin) :: rest, (vtx, idx) =>
    match colors.get? id with
    | none => .error .oob
    | some c =>
      let color := colorRgb c
      let i0 := vtx.length
      let v := tile.vertex.map fun p => Vertex.mk (origin.mulVec p) color
      let i := tile.index.map fun k => i0 + k
      pushAll colors tile rest (vtx ++ v, idx ++ i)

/-- `TilingGenerator::generate`: run `layer` from the identity transform
with fragment id `0`, rotation `0`, with `rotation_matrix =
Matrix3::from_angle_z(CENTRAL_ANGLE)` and `forward_transform =
translation((len, 0))`, then assemble the mesh. -/
noncomputable def TilingGenerator.generate (g : TilingGenerator)
    (colors : List Color) (depth : Nat) :
    Except GenError (List Vertex × List Nat) :=
  let st : State Mat3 :=
    { rotation_matrix := fromAngleZ CENTRAL_ANGLE
      forward_transform := translation g.len 0
      data := g.data }
  match layer st 1 0 0 depth with
  | .error e => .error e
  | .ok l => pushAll colors g.tile l ([], [])

end Hyperbolic

deriving instance DecidableEq for Except

namespace Hyperbolic

/-! ### Helper lemmas -/

/-- The traversal state `TilingGenerator::generate` builds. -/
noncomputable def genState (g : TilingGenerator) : State Mat3 :=
  { rotation_matrix := fromAngleZ CENTRAL_ANGLE
    forward_transform := translation g.len 0
    data := g.data }

theorem generate_eq (g : TilingGenerator) (colors : List Color) (depth : Nat) :
    g.generate colors depth =
      match layer (genState g) 1 0 0 depth with
      | .error e => .error e
      | .ok l => pushAll colors g.tile l ([], []) := rfl

/-- The emitted fragment ids of a traversal result. -/
def emittedIds {M : Type} (e : Except GenError (List (Nat × M))) :
    Except GenError (List Nat) :=
  e.map (List.map Prod.fst)

/-- A transform-free instantiation of the traversal used for concrete
computation: the transforms never influence the control flow. -/
def natState (data : List Fragment) : State ℕ := ⟨1, 1, data⟩

theorem iterGo_map_fst {M : Type} [Mul M] (rt : M) (tr : M) (l : List Nat) :
    (iterGo rt tr l).map Prod.fst = l := by
  induction l generalizing tr with
  | nil => rfl
  | cons i is ih => simp [iterGo, ih]

theorem iter_map_fst {M : Type} [Mul M] (s : State M) :
    s.iter.map Prod.fst = List.range 4 := iterGo_map_fst _ _ _

theorem branchLookup_ne_fuel (data : List Fragment) (id rot i : Nat) :
    branchLookup data id rot i ≠ .error .fuel := by
  rw [branchLookup]
  split
  · simp
  · split <;> simp

theorem sidesGo_ne_fuel {M : Type} [Mul M] (data : List Fragment)
    (rec : M → Nat → Nat → Nat → Except GenError (List (Nat × M)))
    (tr : M) (id rot layers : Nat)
    (hrec : ∀ m i2 r2, rec m i2 r2 (layers - 1) ≠ .error .fuel) :
    ∀ l, sidesGo data rec tr id rot layers l ≠ .error .fuel := by
  intro l
  induction l with
  | nil => simp [sidesGo]
  | cons p rest ih =>
    obtain ⟨i, tr1⟩ := p
    rw [sidesGo]
    split
    · cases hb : branchLookup data id rot i with
      | error e =>
        cases e with
        | fuel => exact absurd hb (branchLookup_ne_fuel data id rot i)
        | oob => simp
      | ok b =>
        by_cases h1 : b.1 = 0
        · simp [h1, ih]
        · simp only [h1, if_false]
          cases hr : rec (tr * tr1) (b.1 - 1) b.2 (layers - 1) with
          | error e =>
            cases e with
            | fuel => exact absurd hr (hrec _ _ _)
            | oob => simp
          | ok sub =>
            cases hs : sidesGo data rec tr id rot layers rest with
            | error e =>
              cases e with
              | fuel => exact absurd hs ih
              | oob => simp
            | ok more => simp
    · exact ih

theorem layerF_ne_fuel {M : Type} [Mul M] (st : State M) :
    ∀ (fuel : Nat) (tr : M) (id rot layers : Nat), layers < fuel →
      layerF st fuel tr id rot layers ≠ .error .fuel := by
  intro fuel
  induction fuel with
  | zero => intro _ _ _ _ h; omega
  | succ fuel ih =>
    intro tr id rot layers hlt
    rw [layerF]
    split
    · simp
    · have hrec : ∀ (m : M) i2 r2,
          layerF st fuel m i2 r2 (layers - 1) ≠ .error .fuel := by
        intro m i2 r2
        exact ih m i2 r2 (layers - 1) (by omega)
      cases hs : sidesGo st.data (layerF st fuel) tr id rot layers st.iter with
      | error e =>
        cases e with
        | fuel => exact absurd hs (sidesGo_ne_fuel st.data _ tr id rot layers hrec _)
        | oob => simp
      | ok children => simp

theorem sidesGo_fst_congr {M₁ M₂ : Type} [Mul M₁] [Mul M₂] (data : List Fragment)
    (rec₁ : M₁ → Nat → Nat → Nat → Except GenError (List (Nat × M₁)))
    (rec₂ : M₂ → Nat → Nat → Nat → Except GenError (List (Nat × M₂)))
    (hrec : ∀ m₁ m₂ i2 r2 l2,
      emittedIds (rec₁ m₁ i2 r2 l2) = emittedIds (rec₂ m₂ i2 r2 l2))
    (tr₁ : M₁) (tr₂ : M₂) (id rot layers : Nat) :
    ∀ (l₁ : List (Nat × M₁)) (l₂ : List (Nat × M₂)),
      l₁.map Prod.fst = l₂.map Prod.fst →
      emittedIds (sidesGo data rec₁ tr₁ id rot layers l₁) =
        emittedIds (sidesGo data rec₂ tr₂ id rot layers l₂) := by
  intro l₁
  induction l₁ with
  | nil =>
    intro l₂ h
    cases l₂ with
    | nil => rfl
    | cons q r₂ => simp at h
  | cons p r₁ ih =>
    intro l₂ h
    cases l₂ with
    | nil => simp at h
    | cons q r₂ =>
      obtain ⟨i, m₁⟩ := p
      obtain ⟨j, m₂⟩ := q
      simp only [List.map_cons, List.cons.injEq] at h
      obtain ⟨hij, hrest⟩ := h
      subst hij
      rw [sidesGo, sidesGo]
      by_cases hc : id = 0 ∨ i ≠ 2
      · rw [if_pos hc, if_pos hc]
        cases hb : branchLookup data id rot i with
        | error e => rfl
        | ok b =>
          dsimp only
          by_cases h0 : b.1 = 0
          · rw [if_pos h0, if_pos h0]
            exact ih r₂ hrest
          · rw [if_neg h0, if_neg h0]
            have hr := hrec (tr₁ * m₁) (tr₂ * m₂) (b.1 - 1) b.2 (layers - 1)
            have hihr := ih r₂ hrest
            cases h1 : rec₁ (tr₁ * m₁) (b.1 - 1) b.2 (layers - 1) with
            | error e₁ =>
              cases h2 : rec₂ (tr₂ * m₂) (b.1 - 1) b.2 (layers - 1) with
              | error e₂ =>
                rw [h1, h2] at hr
                simp only [emittedIds, Except.map] at hr ⊢
                simp at hr
                simp [hr]
              | ok sub₂ =>
                rw [h1, h2] at hr
                simp [emittedIds, Except.map] at hr
            | ok sub₁ =>
              cases h2 : rec₂ (tr₂ * m₂) (b.1 - 1) b.2 (layers - 1) with
              | error e₂ =>
                rw [h1, h2] at hr
                simp [emittedIds, Except.map] at hr
              | ok sub₂ =>
                rw [h1, h2] at hr
                simp only [emittedIds, Except.map, Except.ok.injEq] at hr
                cases hs₁ : sidesGo data rec₁ tr₁ id rot layers r₁ with
                | error e₁ =>
                  cases hs₂ : sidesGo data rec₂ tr₂ id rot layers r₂ with
                  | error e₂ =>
                    rw [hs₁, hs₂] at hihr
                    simp only [emittedIds, Except.map] at hihr ⊢
                    simp at hihr
                    simp [hihr]
                  | ok more₂ =>
                    rw [hs₁, hs₂] at hihr
                    simp [emittedIds, Except.map] at hihr
                | ok more₁ =>
                  cases hs₂ : sidesGo data rec₂ tr₂ id rot layers r₂ with
                  | error e₂ =>
                    rw [hs₁, hs₂] at hihr
                    simp [emittedIds, Except.map] at hihr
                  | ok more₂ =>
                    rw [hs₁, hs₂] at hihr
                    simp only [emittedIds, Except.map, Except.ok.injEq] at hihr ⊢
                    simp [hr, hihr]
      · rw [if_neg hc, if_neg hc]
        exact ih r₂ hrest

theorem layerF_fst_congr {M₁ M₂ : Type} [Mul M₁] [Mul M₂]
    (st₁ : State M₁) (st₂ : State M₂) (hdata : st₁.data = st₂.data) :
    ∀ (fuel : Nat) (tr₁ : M₁) (tr₂ : M₂) (id rot layers : Nat),
      emittedIds (layerF st₁ fuel tr₁ id rot layers) =
        emittedIds (layerF st₂ fuel tr₂ id rot layers) := by
  intro fuel
  induction fuel with
  | zero => intro _ _ _ _ _; rfl
  | succ fuel ih =>
    intro tr₁ tr₂ id rot layers
    rw [layerF, layerF]
    by_cases hl : layers = 0
    · rw [if_pos hl, if_pos hl]; simp [emittedIds, Except.map]
    · rw [if_neg hl, if_neg hl, hdata]
      have hiter : st₁.iter.map Prod.fst = st₂.iter.map Prod.fst := by
        rw [iter_map_fst, iter_map_fst]
      have hs := sidesGo_fst_congr st₂.data (layerF st₁ fuel) (layerF st₂ fuel)
        (fun m₁ m₂ i2 r2 l2 => ih m₁ m₂ i2 r2 l2) tr₁ tr₂ id rot layers
        st₁.iter st₂.iter hiter
      cases h1 : sidesGo st₂.data (layerF st₁ fuel) tr₁ id rot layers st₁.iter with
      | error e₁ =>
        cases h2 : sidesGo st₂.data (layerF st₂ fuel) tr₂ id rot layers st₂.iter with
        | error e₂ =>
          rw [h1, h2] at hs
          simp only [emittedIds, Except.map] at hs ⊢
          simp at hs
          simp [hs]
        | ok more₂ =>
          rw [h1, h2] at hs
          simp [emittedIds, Except.map] at hs
      | ok ch₁ =>
        cases h2 : sidesGo st₂.data (layerF st₂ fuel) tr₂ id rot layers st₂.iter with
        | error e₂ =>
          rw [h1, h2] at hs
          simp [emittedIds, Except.map] at hs
        | ok ch₂ =>
          rw [h1, h2] at hs
          simp only [emittedIds, Except.map, Except.ok.injEq] at hs ⊢
          simp [hs]

theorem emittedIds_ok_iff {M : Type} (e : Except GenError (List (Nat × M)))
    (ids : List Nat) :
    emittedIds e = .ok ids ↔ ∃ l, e = .ok l ∧ l.map Prod.fst = ids := by
  cases e <;> simp [emittedIds, Except.map]

theorem emittedIds_error_iff {M : Type} (e : Except GenError (List (Nat × M)))
    (err : GenError) :
    emittedIds e = .error err ↔ e = .error err := by
  cases e <;> simp [emittedIds, Except.map]

theorem pushAll_spec (colors : List Color) (tile : MeshT (Fin 3 → ℝ))
    (htb : ∀ t ∈ tile.index, t < tile.vertex.length) :
    ∀ (l : List (Nat × Mat3)) (vtx : List Vertex) (idx : List Nat),
      (∀ x ∈ idx, x < vtx.length) →
      (∀ p ∈ l, p.1 < colors.length) →
      ∃ v i, pushAll colors tile l (vtx, idx) = .ok (v, i) ∧
        v.length = vtx.length + tile.vertex.length * l.length ∧
        i.length = idx.length + tile.index.length * l.length ∧
        ∀ x ∈ i, x < v.length := by
  intro l
  induction l with
  | nil =>
    intro vtx idx hidx hl
    exact ⟨vtx, idx, rfl, by simp, by simp, hidx⟩
  | cons p rest ih =>
    intro vtx idx hidx hl
    obtain ⟨id, origin⟩ := p
    have hid : id < colors.length := hl (id, origin) (by simp)
    obtain ⟨c, hc⟩ : ∃ c, colors.get? id = some c :=
      ⟨colors.get ⟨id, hid⟩, List.get?_eq_get hid⟩
    have hacc : ∀ x ∈ idx ++ tile.index.map (fun k => vtx.length + k),
        x < (vtx ++ tile.vertex.map
          (fun q => Vertex.mk (Matrix.mulVec origin q) (colorRgb c))).length := by
      intro x hx
      rw [List.length_append, List.length_map]
      rcases List.mem_append.1 hx with hx | hx
      · exact lt_of_lt_of_le (hidx x hx) (Nat.le_add_right _ _)
      · obtain ⟨t, ht, rfl⟩ := List.mem_map.1 hx
        exact Nat.add_lt_add_left (htb t ht) _
    obtain ⟨v, i, hpush, hv, hi, hbound⟩ :=
      ih (vtx ++ tile.vertex.map fun q =>
          Vertex.mk (Matrix.mulVec origin q) (colorRgb c))
        (idx ++ tile.index.map fun k => vtx.length + k) hacc
        (fun q hq => hl q (List.mem_cons_of_mem _ hq))
    refine ⟨v, i, ?_, ?_, ?_, hbound⟩
    · rw [pushAll, hc]
      exact hpush
    · rw [hv, List.length_append, List.length_map, List.length_cons,
        Nat.mul_succ]
      omega
    · rw [hi, List.length_append, List.length_map, List.length_cons,
        Nat.mul_succ]
      omega

theorem pushAll_ok_spec (colors : List Color) (tile : MeshT (Fin 3 → ℝ))
    (htb : ∀ t ∈ tile.index, t < tile.vertex.length) :
    ∀ (l : List (Nat × Mat3)) (vtx : List Vertex) (idx : List Nat)
      (v : List Vertex) (i : List Nat),
      (∀ x ∈ idx, x < vtx.length) →
      pushAll colors tile l (vtx, idx) = .ok (v, i) →
      v.length = vtx.length + tile.vertex.length * l.length ∧
      i.length = idx.length + tile.index.length * l.length ∧
      ∀ x ∈ i, x < v.length := by
  intro l
  induction l with
  | nil =>
    intro vtx idx v i hidx hok
    rw [pushAll] at hok
    obtain ⟨rfl, rfl⟩ : vtx = v ∧ idx = i := by
      simpa using hok
    exact ⟨by simp, by simp, hidx⟩
  | cons p rest ih =>
    intro vtx idx v i hidx hok
    obtain ⟨id, origin⟩ := p
    rw [pushAll] at hok
    cases hc : colors.get? id with
    | none => rw [hc] at hok; simp at hok
    | some c =>
      rw [hc] at hok
      dsimp only at hok
      have hacc : ∀ x ∈ idx ++ tile.index.map (fun k => vtx.length + k),
          x < (vtx ++ tile.vertex.map
            (fun q => Vertex.mk (Matrix.mulVec origin q) (colorRgb c))).length := by
        intro x hx
        rw [List.length_append, List.length_map]
        rcases List.mem_append.1 hx with hx | hx
        · exact lt_of_lt_of_le (hidx x hx) (Nat.le_add_right _ _)
        · obtain ⟨t, ht, rfl⟩ := List.mem_map.1 hx
          exact Nat.add_lt_add_left (htb t ht) _
      obtain ⟨hv, hi, hbound⟩ := ih _ _ v i hacc hok
      refine ⟨?_, ?_, hbound⟩
      · rw [hv, List.length_append, List.length_map, List.length_cons,
          Nat.mul_succ]
        omega
      · rw [hi, List.length_append, List.length_map, List.length_cons,
          Nat.mul_succ]
        omega

theorem tile_vertex_length (side : ℝ) :
    (generate_tile side 10).vertex.length = 40 := rfl

theorem tile_index_length (side : ℝ) :
    (generate_tile side 10).index.length = 120 := rfl

theorem tile_index_bound (side : ℝ) :
    ∀ t ∈ (generate_tile side 10).index, t < 40 := by
  intro t ht
  simp only [generate_tile, List.mem_flatMap, List.mem_range] at ht
  obtain ⟨i, hi, ht⟩ := ht
  simp only [List.mem_cons, List.not_mem_nil, or_false] at ht
  omega

/-- `State::iter` enumerates the side transforms as
`rotation_matrix ^ i * forward_transform` for `i` in `0..4`. -/
theorem iter_eq_pows {M : Type} [Monoid M] (s : State M) :
    s.iter = (List.range 4).map fun i =>
      (i, s.rotation_matrix ^ i * s.forward_transform) := by
  show iterGo s.rotation_matrix s.forward_transform (List.range 4) = _
  have h4 : List.range 4 = [0, 1, 2, 3] := rfl
  rw [h4]
  simp [iterGo, pow_succ, pow_zero, one_mul, mul_assoc]

theorem sidesGo_filter_self {M : Type} [Mul M] (data : List Fragment)
    (rec : M → Nat → Nat → Nat → Except GenError (List (Nat × M)))
    (tr : M) (id rot layers : Nat) :
    ∀ l, sidesGo data rec tr id rot layers l =
      sidesGo data rec tr id rot layers
        (l.filter fun p => decide (id = 0 ∨ p.1 ≠ 2)) := by
  intro l
  induction l with
  | nil => rfl
  | cons p rest ih =>
    obtain ⟨i, m⟩ := p
    by_cases hc : id = 0 ∨ i ≠ 2
    · have hcd : decide (id = 0 ∨ i ≠ 2) = true := decide_eq_true hc
      rw [List.filter_cons, hcd, if_pos rfl]
      rw [sidesGo, sidesGo, if_pos hc, if_pos hc]
      cases hb : branchLookup data id rot i with
      | error e => rfl
      | ok b =>
        dsimp only
        by_cases h0 : b.1 = 0
        · rw [if_pos h0, if_pos h0]
          exact ih
        · rw [if_neg h0, if_neg h0, ih]
    · have hcd : decide (id = 0 ∨ i ≠ 2) = false := decide_eq_false hc
      rw [List.filter_cons, hcd, if_neg Bool.false_ne_true]
      rw [sidesGo, if_neg hc]
      exact ih

/-! ### The side-skipping policy stated by the specification (for C2)

The spec says the side facing the parent (index 2 for this 4-sided tile)
is skipped *for every instance except the root*.  The following pair of
definitions implements that policy literally, with an explicit `root`
flag that is true only for the outermost invocation; it is compared
against the code's `layer`, whose filter instead tests `id == 0`. -/

/-- Modelled from the spec: the side loop with the "skip side 2 unless
this instance is the root" policy of §4.4. -/
def sidesGoSpec {M : Type} [Mul M] (data : List Fragment)
    (rec : M → Nat → Nat → Nat → Except GenError (List (Nat × M)))
    (root : Bool) (tr : M) (id rot layers : Nat) :
    List (Nat × M) → Except GenError (List (Nat × M))
  | [] => .ok []
  | (i, tr1) :: rest =>
    if root = true ∨ i ≠ 2 then
      match branchLookup data id rot i with
      | .error e => .error e
      | .ok b =>
        if b.1 = 0 then sidesGoSpec data rec root tr id rot layers rest
        else
          match rec (tr * tr1) (b.1 - 1) b.2 (layers - 1) with
          | .error e => .error e
          | .ok sub =>
            match sidesGoSpec data rec root tr id rot layers rest with
            | .error e => .error e
            | .ok more => .ok (sub ++ more)
    else sidesGoSpec data rec root tr id rot layers rest

/-- Modelled from the spec: `layer` under the "every instance except the
root skips side 2" policy; recursive invocations carry `root = false`. -/
def layerSpecF {M : Type} [Mul M] (st : State M) :
    Nat → Bool → M → Nat → Nat → Nat → Except GenError (List (Nat × M))
  | 0, _, _, _, _, _ => .error .fuel
  | fuel + 1, root, tr, id, rot, layers =>
    if layers = 0 then .ok [(id, tr)]
    else
      match sidesGoSpec st.data (layerSpecF st fuel false) root tr id rot layers
          st.iter with
      | .error e => .error e
      | .ok children => .ok ((id, tr) :: children)

/-- Modelled from the spec: the spec-policy traversal started at the root. -/
def layerSpec {M : Type} [Mul M] (st : State M) (tr : M) (id rot layers : Nat) :
    Except GenError (List (Nat × M)) :=
  layerSpecF st (layers + 1) true tr id rot layers

/-- The side list prescribed by the amended claim C2: instances of
fragment id `0` (root or not) expand every side; all others drop side 2. -/
def sidesOf {M : Type} [Mul M] (st : State M) (id : Nat) : List (Nat × M) :=
  if id = 0 then st.iter else st.iter.filter fun p => p.1 ≠ 2

/-- Mesh sizes of a successful `generate`, computed from the emitted id
list of the transform-free traversal instantiation. -/
theorem generate_counts (s : String) (colors : List Color) (depth : Nat)
    (ids : List Nat)
    (hids : emittedIds (layerF (natState ((rustLines s).filterMap Fragment.parse))
      (depth + 1) 1 0 0 depth) = .ok ids)
    (hcol : ∀ id ∈ ids, id < colors.length) :
    ((TilingGenerator.new s).generate colors depth).map
      (fun vi => (vi.1.length, vi.2.length)) =
      .ok (40 * ids.length, 120 * ids.length) := by
  have hdata : (genState (TilingGenerator.new s)).data =
      (natState ((rustLines s).filterMap Fragment.parse)).data := rfl
  have htr := layerF_fst_congr (genState (TilingGenerator.new s))
    (natState ((rustLines s).filterMap Fragment.parse)) hdata
    (depth + 1) 1 1 0 0 depth
  rw [hids] at htr
  obtain ⟨l, hl, hmap⟩ := (emittedIds_ok_iff _ _).1 htr
  have hlen : l.length = ids.length := by rw [← hmap, List.length_map]
  have hmem : ∀ p ∈ l, p.1 < colors.length := by
    intro p hp
    exact hcol p.1 (hmap ▸ List.mem_map_of_mem Prod.fst hp)
  have h40 : (TilingGenerator.new s).tile.vertex.length = 40 := rfl
  have h120 : (TilingGenerator.new s).tile.index.length = 120 := rfl
  have htb : ∀ t ∈ (TilingGenerator.new s).tile.index,
      t < (TilingGenerator.new s).tile.vertex.length := by
    rw [h40]
    exact tile_index_bound _
  obtain ⟨v, i, hok, hv, hi, _⟩ :=
    pushAll_spec colors (TilingGenerator.new s).tile htb l [] [] (by simp) hmem
  have hgen : (TilingGenerator.new s).generate colors depth =
      pushAll colors (TilingGenerator.new s).tile l ([], []) := by
    rw [generate_eq,
      show layer (genState (TilingGenerator.new s)) 1 0 0 depth = .ok l from hl]
  rw [hgen, hok]
  simp only [Except.map, Except.ok.injEq, Prod.mk.injEq]
  exact ⟨by rw [hv, h40, hlen]; simp, by rw [hi, h120, hlen]; simp⟩

/-! ## The claims -/

/-- C1 (counterexample): the claim reads a `<neighbor-id>` of `0` as the
"no neighbor" sentinel, so for definition text `0,0,0,0` it predicts
`generate(3)` has the same vertex/index counts as `generate(0)`.  In the
code a literal `0` parses to stored id `1` — a reference to fragment `0`
itself — so `generate(3)` emits 85 tile instances: 3400 vertices and
10200 indices against 40 and 120 for `generate(0)`. -/
theorem c1_counterexample :
    ((TilingGenerator.new "0,0,0,0").generate [⟨0, 0, 0⟩] 3).map
        (fun vi => (vi.1.length, vi.2.length)) = .ok (3400, 10200) ∧
    ((TilingGenerator.new "0,0,0,0").generate [⟨0, 0, 0⟩] 0).map
        (fun vi => (vi.1.length, vi.2.length)) = .ok (40, 120) ∧
    ((3400 : Nat), (10200 : Nat)) ≠ ((40 : Nat), (120 : Nat)) := by
  refine ⟨?_, ?_, by decide⟩
  · have h := generate_counts "0,0,0,0" [⟨0, 0, 0⟩] 3 (List.replicate 85 0)
      (by decide) (by decide)
    norm_num [List.length_replicate] at h
    exact h
  · have h := generate_counts "0,0,0,0" [⟨0, 0, 0⟩] 0 [0] (by decide) (by decide)
    norm_num at h
    exact h

/-- C1 (amended): a branch whose neighbor-id text fails to parse as a
`u16` (in particular an empty branch) is the "no neighbor" sentinel and
spawns no child, while a literal `0` refers to fragment 0 (ids are stored
shifted by one).  For the definition text `,,,` — a single fragment type
whose four branches are all empty — `generate(3)` yields the same vertex
and index counts as `generate(0)`. -/
theorem c1_amended :
    Fragment.parse ",,," = some ⟨[(0, 0), (0, 0), (0, 0), (0, 0)]⟩ ∧
    ((TilingGenerator.new ",,,").generate [⟨0, 0, 0⟩] 3).map
        (fun vi => (vi.1.length, vi.2.length)) = .ok (40, 120) ∧
    ((TilingGenerator.new ",,,").generate [⟨0, 0, 0⟩] 0).map
        (fun vi => (vi.1.length, vi.2.length)) = .ok (40, 120) := by
  refine ⟨by decide, ?_, ?_⟩
  · have h := generate_counts ",,," [⟨0, 0, 0⟩] 3 [0] (by decide) (by decide)
    norm_num at h
    exact h
  · have h := generate_counts ",,," [⟨0, 0, 0⟩] 0 [0] (by decide) (by decide)
    norm_num at h
    exact h

/-- C2 (counterexample): the claim says every non-root instance skips
side index 2, regardless of its fragment id.  The code's filter is
`id == 0 || i != 2`, keyed on the fragment id, not on being the root.
With the table `0,0,2,0 / ,,, / ,,,` (fragment 0's side 2 leads to
fragment 2, its other sides back to fragment 0) at depth 2, the emitted
ids differ from the spec policy's (modelled by `layerSpec`), and fragment
2 is emitted four times — once across the root's side 2 and three more
times across side 2 of the non-root fragment-0 instances — where the
claimed policy yields exactly one. -/
theorem c2_counterexample :
    emittedIds (layer (natState
        ((rustLines "0,0,2,0\n,,,\n,,,").filterMap Fragment.parse)) 1 0 0 2) ≠
      emittedIds (layerSpec (natState
        ((rustLines "0,0,2,0\n,,,\n,,,").filterMap Fragment.parse)) 1 0 0 2) ∧
    (emittedIds (layer (natState
        ((rustLines "0,0,2,0\n,,,\n,,,").filterMap Fragment.parse)) 1 0 0 2)).map
      (List.count 2) = .ok 4 ∧
    (emittedIds (layerSpec (natState
        ((rustLines "0,0,2,0\n,,,\n,,,").filterMap Fragment.parse)) 1 0 0 2)).map
      (List.count 2) = .ok 1 :=
  ⟨by decide, by decide, by decide⟩

/-- C2 (amended): which sides an instance expands is keyed on its
fragment id, not on being the root: an invocation of `layer` on a
fragment with nonzero id drops side index 2 from the side list, and an
invocation on fragment id 0 — the root, but also any non-root instance
reached through a branch naming fragment 0 — expands all four sides. -/
theorem c2_amended {M : Type} [Mul M] (st : State M) (fuel : Nat) (tr : M)
    (id rot layers : Nat) (h : layers ≠ 0) :
    layerF st (fuel + 1) tr id rot layers =
      (sidesGo st.data (layerF st fuel) tr id rot layers (sidesOf st id)).map
        (fun children => (id, tr) :: children) := by
  rw [layerF, if_neg h,
    sidesGo_filter_self st.data (layerF st fuel) tr id rot layers st.iter]
  have hsides : st.iter.filter (fun p => decide (id = 0 ∨ p.1 ≠ 2)) =
      sidesOf st id := by
    by_cases h0 : id = 0
    · rw [sidesOf, if_pos h0]
      subst h0
      simp
    · rw [sidesOf, if_neg h0]
      apply List.filter_congr
      intro p _
      simp [h0]
  rw [hsides]
  cases sidesGo st.data (layerF st fuel) tr id rot layers (sidesOf st id) <;>
    simp [Except.map]

/-- C2 (witness): the amended statement applied at fragment id 1,
depth 1, over the transform-free instantiation. -/
theorem c2_amended_witness :
    layerF (natState []) (0 + 1) 1 1 0 1 =
      (sidesGo (natState []).data (layerF (natState []) 0) 1 1 0 1
          (sidesOf (natState []) 1)).map
        (fun children => (1, 1) :: children) :=
  c2_amended (natState []) 0 1 1 0 1 (by decide)

/-- C3: the spec requires the generator to guard against a branch table
shorter than `p` and against neighbor ids past the fragment table, but
the code indexes both slices unchecked: for the definition text `1`
(one fragment whose branch list has length 1) at depth 1, the traversal
reaches `branch[1]` on a one-element branch list and panics (modelled as
`GenError.oob`), so `generate` returns no mesh. -/
theorem c3_oob_panic :
    (TilingGenerator.new "1").generate [⟨0, 0, 0⟩, ⟨0, 0, 0⟩] 1 =
      .error .oob := by
  have hdata : (genState (TilingGenerator.new "1")).data =
      (natState ((rustLines "1").filterMap Fragment.parse)).data := rfl
  have htr := layerF_fst_congr (genState (TilingGenerator.new "1"))
    (natState ((rustLines "1").filterMap Fragment.parse)) hdata 2 1 1 0 0 1
  have hnat : emittedIds (layerF (natState
      ((rustLines "1").filterMap Fragment.parse)) 2 1 0 0 1) = .error .oob := by
    decide
  rw [hnat] at htr
  have hl := (emittedIds_error_iff _ _).1 htr
  rw [generate_eq,
    show layer (genState (TilingGenerator.new "1")) 1 0 0 1 = .error .oob from hl]

/-- C4: in each expansion step the side transforms enumerate as
`rotation_matrix ^ i * forward_transform` for `i` in `0..4`; the child
entry is read from the current fragment's branch list at index
`(i + rot) % 4`; and for a non-sentinel entry the recursion is
`layer(tr * sideTransform[i], b.1 - 1, b.2, layers - 1)`. -/
theorem c4_expansion_step :
    (∀ (M : Type) [Monoid M] (st : State M),
      st.iter = (List.range 4).map fun i =>
        (i, st.rotation_matrix ^ i * st.forward_transform)) ∧
    (∀ (M : Type) [Mul M] (st : State M) (fuel : Nat) (tr : M)
        (id rot layers : Nat), layers ≠ 0 →
      layerF st (fuel + 1) tr id rot layers =
        (sidesGo st.data (layerF st fuel) tr id rot layers st.iter).map
          (fun children => (id, tr) :: children)) ∧
    (∀ (M : Type) [Mul M] (data : List Fragment)
        (rec : M → Nat → Nat → Nat → Except GenError (List (Nat × M)))
        (tr s : M) (id rot layers i : Nat) (rest : List (Nat × M))
        (f : Fragment) (b : Nat × Nat),
      (id = 0 ∨ i ≠ 2) → data.get? id = some f →
      f.branch.get? ((i + rot) % 4) = some b → b.1 ≠ 0 →
      sidesGo data rec tr id rot layers ((i, s) :: rest) =
        match rec (tr * s) (b.1 - 1) b.2 (layers - 1) with
        | .error e => .error e
        | .ok sub =>
          match sidesGo data rec tr id rot layers rest with
          | .error e => .error e
          | .ok more => .ok (sub ++ more)) := by
  refine ⟨fun M _ st => iter_eq_pows st,
    fun M _ st fuel tr id rot layers h => ?_,
    fun M _ data rec tr s id rot layers i rest f b hc hf hg h0 => ?_⟩
  · rw [layerF, if_neg h]
    cases sidesGo st.data (layerF st fuel) tr id rot layers st.iter <;>
      simp [Except.map]
  · rw [sidesGo, if_pos hc]
    have hb : branchLookup data id rot i = .ok b := by
      simp only [branchLookup, hf, hg]
    rw [hb]
    dsimp only
    rw [if_neg h0]

/-- C4 (witness): both hypothesis-bearing parts applied at concrete
transform-free inputs, with the results evaluated. -/
theorem c4_expansion_step_witness :
    layerF (natState []) (0 + 1) 1 5 0 1 = .error .oob ∧
    sidesGo [Fragment.mk [(1, 0)]]
        (fun _ _ _ _ => Except.ok ([] : List (Nat × ℕ))) 1 0 0 1 [(0, 1)] =
      .ok [] :=
  ⟨(c4_expansion_step.2.1 ℕ (natState []) 0 1 5 0 1 (by decide)).trans (by decide),
    (c4_expansion_step.2.2 ℕ [Fragment.mk [(1, 0)]]
      (fun _ _ _ _ => Except.ok ([] : List (Nat × ℕ))) 1 1 0 0 1 0 []
      (Fragment.mk [(1, 0)]) (1, 0) (Or.inl rfl) rfl rfl
      (by decide)).trans (by decide)⟩

/-- C5: at depth 0 the traversal emits exactly the root instance with
fragment id 0 and the identity transform, for any fragment table (the
table is never consulted), and `generate` returns a mesh with exactly the
tile template's vertex and index counts, for any colors table with at
least one entry. -/
theorem c5_generate_zero (g : TilingGenerator) (colors : List Color)
    (h : 0 < colors.length) :
    layer (genState g) 1 0 0 0 = .ok [(0, 1)] ∧
    (g.generate colors 0).map (fun vi => (vi.1.length, vi.2.length)) =
      .ok (g.tile.vertex.length, g.tile.index.length) := by
  refine ⟨rfl, ?_⟩
  obtain ⟨c, hc⟩ : ∃ c, colors.get? 0 = some c :=
    ⟨colors.get ⟨0, h⟩, List.get?_eq_get h⟩
  have hgen : g.generate colors 0 = pushAll colors g.tile [(0, 1)] ([], []) := rfl
  rw [hgen, pushAll, hc]
  dsimp only
  rw [pushAll]
  simp [Except.map]

/-- C5 (witness): the statement at the empty definition text (empty
fragment table) and a one-entry colors table. -/
theorem c5_generate_zero_witness :
    layer (genState (TilingGenerator.new "")) 1 0 0 0 = .ok [(0, 1)] ∧
    ((TilingGenerator.new "").generate [⟨0, 0, 0⟩] 0).map
        (fun vi => (vi.1.length, vi.2.length)) =
      .ok ((TilingGenerator.new "").tile.vertex.length,
        (TilingGenerator.new "").tile.index.length) :=
  c5_generate_zero (TilingGenerator.new "") [⟨0, 0, 0⟩] (by decide)

/-- C6: `translation(d) * translation(-d)` is exactly the identity matrix
over real arithmetic, and `translation(0)` is the identity matrix. -/
theorem c6_translation_inverse :
    (∀ px py : ℝ, translation px py * translation (-px) (-py) = 1) ∧
    translation 0 0 = 1 := by
  constructor
  · intro px py
    have harg : (1 + (-px * -px + -py * -py)) = (1 + (px * px + py * py)) := by
      ring
    have hw : Real.sqrt (1 + (px * px + py * py)) ^ 2 =
        1 + (px * px + py * py) :=
      Real.sq_sqrt (by nlinarith [mul_self_nonneg px, mul_self_nonneg py])
    have hw0 : 0 ≤ Real.sqrt (1 + (px * px + py * py)) := Real.sqrt_nonneg _
    have hs : Real.sqrt (1 + (px * px + py * py)) + 1 ≠ 0 := by positivity
    ext i j
    fin_cases i <;> fin_cases j <;>
      simp [translation, fromCols, Matrix.mul_apply, Fin.sum_univ_three,
        Matrix.one_apply, harg] <;>
      (try field_simp)
    · linear_combination (-(px * px)) * hw
    · linear_combination (-(px * py)) * hw
    · linear_combination (px * (Real.sqrt (1 + (px * px + py * py)) + 1)) * hw
    · linear_combination (-(py * px)) * hw
    · linear_combination (-(py * py)) * hw
    · linear_combination (py * (Real.sqrt (1 + (px * px + py * py)) + 1)) * hw
    · linear_combination (-px) * hw
    · linear_combination (-py) * hw
    · linear_combination hw
  · have h1 : Real.sqrt (1 + (0 * 0 + 0 * 0)) = 1 := by
      rw [show (1 : ℝ) + (0 * 0 + 0 * 0) = 1 by ring, Real.sqrt_one]
    ext i j
    fin_cases i <;> fin_cases j <;>
      simp [translation, fromCols, Matrix.one_apply, h1, Matrix.vecHead,
        Matrix.vecTail]

/-- C7: every `translation(d)` preserves the hyperboloid quadratic form
`w² − x² − y² = 1` exactly over real arithmetic; in particular it maps
the origin `(0, 0, 1)` to a point satisfying that equation. -/
theorem c7_form_preserved :
    (∀ px py x y w : ℝ, w ^ 2 - x ^ 2 - y ^ 2 = 1 →
      ((translation px py).mulVec ![x, y, w] 2) ^ 2 -
        ((translation px py).mulVec ![x, y, w] 0) ^ 2 -
        ((translation px py).mulVec ![x, y, w] 1) ^ 2 = 1) ∧
    (∀ px py : ℝ,
      ((translation px py).mulVec ![0, 0, 1] 2) ^ 2 -
        ((translation px py).mulVec ![0, 0, 1] 0) ^ 2 -
        ((translation px py).mulVec ![0, 0, 1] 1) ^ 2 = 1) := by
  have key : ∀ px py x y w : ℝ, w ^ 2 - x ^ 2 - y ^ 2 = 1 →
      ((translation px py).mulVec ![x, y, w] 2) ^ 2 -
        ((translation px py).mulVec ![x, y, w] 0) ^ 2 -
        ((translation px py).mulVec ![x, y, w] 1) ^ 2 = 1 := by
    intro px py x y w h
    have hw : Real.sqrt (1 + (px * px + py * py)) ^ 2 =
        1 + (px * px + py * py) :=
      Real.sq_sqrt (by nlinarith [mul_self_nonneg px, mul_self_nonneg py])
    have hw0 : 0 ≤ Real.sqrt (1 + (px * px + py * py)) := Real.sqrt_nonneg _
    have hs : Real.sqrt (1 + (px * px + py * py)) + 1 ≠ 0 := by positivity
    simp [translation, fromCols, Matrix.mulVec, Matrix.dotProduct,
      Fin.sum_univ_three]
    field_simp
    linear_combination
      ((px * x + py * y + (Real.sqrt (1 + (px * px + py * py)) + 1) * w) ^ 2) *
          hw +
        ((Real.sqrt (1 + (px * px + py * py)) + 1) ^ 2) * h
  exact ⟨key, fun px py => key px py 0 0 1 (by norm_num)⟩

/-- C7 (witness): the preservation statement applied to the origin point
`(0, 0, 1)` under `translation(0, 0)`. -/
theorem c7_form_preserved_witness :
    (1 : ℝ) ^ 2 - 0 ^ 2 - 0 ^ 2 = 1 ∧
    ((translation 0 0).mulVec ![0, 0, 1] 2) ^ 2 -
        ((translation 0 0).mulVec ![0, 0, 1] 0) ^ 2 -
        ((translation 0 0).mulVec ![0, 0, 1] 1) ^ 2 = 1 :=
  ⟨by norm_num, c7_form_preserved.1 0 0 0 0 1 (by norm_num)⟩

/-- C8: loading is lenient per line: the fragment table is the
concatenation over the lines of each line's own parse result, so a line
whose parse fails contributes no entry while every other line still
contributes its own, and no line aborts the rest. -/
theorem c8_lenient_parse (s : String) :
    (TilingGenerator.new s).data =
      (rustLines s).flatMap fun l => (Fragment.parse l).toList := by
  show (rustLines s).filterMap Fragment.parse = _
  induction rustLines s with
  | nil => rfl
  | cons a tl ih =>
    cases hp : Fragment.parse a <;>
      simp [List.filterMap_cons, hp, ih]

/-- C9: the traversal terminates for every fragment table, start
transform, fragment id, rotation and depth: the recursion consumes one
unit of fuel per level while `layers` strictly decreases, so the fuel
bound `layers + 1` used by `layer` is never exhausted. -/
theorem c9_layer_terminates {M : Type} [Mul M] (st : State M) (tr : M)
    (id rot layers : Nat) : layer st tr id rot layers ≠ .error .fuel :=
  layerF_ne_fuel st (layers + 1) tr id rot layers (Nat.lt_succ_self layers)

/-- C9 (witness): no fuel exhaustion on a concrete transform-free
instance. -/
theorem c9_layer_terminates_witness :
    layer (natState []) 1 0 0 3 ≠ .error .fuel :=
  c9_layer_terminates (natState []) 1 0 0 3

/-- C10: whenever `generate` returns a mesh, it is internally consistent:
with `k` emitted instances the vertex vector has `40·k` entries, the
index vector `120·k` entries, and every index is strictly below the
vertex count. -/
theorem c10_mesh_consistent (s : String) (colors : List Color) (depth : Nat)
    (vi : List Vertex × List Nat)
    (h : (TilingGenerator.new s).generate colors depth = .ok vi) :
    ∃ l, layer (genState (TilingGenerator.new s)) 1 0 0 depth = .ok l ∧
      vi.1.length = 40 * l.length ∧ vi.2.length = 120 * l.length ∧
      ∀ x ∈ vi.2, x < vi.1.length := by
  rw [generate_eq] at h
  cases hl : layer (genState (TilingGenerator.new s)) 1 0 0 depth with
  | error e =>
    rw [hl] at h
    simp at h
  | ok l =>
    rw [hl] at h
    obtain ⟨v, i⟩ := vi
    have h40 : (TilingGenerator.new s).tile.vertex.length = 40 := rfl
    have h120 : (TilingGenerator.new s).tile.index.length = 120 := rfl
    have htb : ∀ t ∈ (TilingGenerator.new s).tile.index,
        t < (TilingGenerator.new s).tile.vertex.length := by
      rw [h40]
      exact tile_index_bound _
    obtain ⟨hv, hi, hb⟩ :=
      pushAll_ok_spec colors (TilingGenerator.new s).tile htb l [] [] v i
        (by simp) h
    exact ⟨l, rfl, by rw [hv, h40]; simp, by rw [hi, h120]; simp, hb⟩

/-- C10 (witness): the statement at the empty definition text, one color
and depth 0, where the mesh is the 40-vertex, 120-index template. -/
theorem c10_mesh_consistent_witness :
    ∃ vi, (TilingGenerator.new "").generate [⟨0, 0, 0⟩] 0 = .ok vi ∧
      vi.1.length = 40 ∧ vi.2.length = 120 ∧
      ∀ x ∈ vi.2, x < vi.1.length := by
  have hvi : (TilingGenerator.new "").generate [⟨0, 0, 0⟩] 0 =
      .ok ((TilingGenerator.new "").tile.vertex.map fun p =>
          Vertex.mk ((1 : Mat3).mulVec p) (colorRgb ⟨0, 0, 0⟩),
        (TilingGenerator.new "").tile.index.map fun k => 0 + k) := rfl
  obtain ⟨l, hl, h1, h2, h3⟩ := c10_mesh_consistent "" [⟨0, 0, 0⟩] 0 _ hvi
  have hll : l = [(0, 1)] := by
    have hz : layer (genState (TilingGenerator.new "")) 1 0 0 0 =
        .ok [(0, 1)] := rfl
    rw [hz] at hl
    exact (Except.ok.inj hl).symm
  rw [hll] at h1 h2
  exact ⟨_, hvi, by simpa using h1, by simpa using h2, h3⟩

end Hyperbolic
